import Mathlib

/-!
Verification of the core of the drone-robot plugin (Robot Framework report
statistics engine, aggregator and threshold validator).

Modelling conventions:
* Go structs become Lean structures; the recursive `Suite` and `Keyword`
  types become nested inductives with projection functions named after the
  Go fields.
* Go `int` is modelled as `Int`; Go `float64` is modelled as `Rat`
  (the spec demands full precision internally, and every value the engine
  ever stores is an exact integer count or an exact quotient of such).
* The engine's goroutine fan-out with a single mutex (computeStats,
  processSuite, processTest in src/plugin/type.go, first engine variant,
  lines 104-261) is modelled by sequential state passing: every counter
  update commutes, and FailedTestsDetails is compared as a multiset,
  exactly as the spec's concurrency section prescribes.
* `parseRobotTime` (layout "20060102 15:04:05.000") is modelled by an
  executable parser that consumes the layout item by item as Go does,
  including the non-fixed hour item (a single-digit hour parses) and the
  comma fractional-second separator Go also accepts, with Go's range
  validation (month 1-12, day bounded by the month length in the proleptic
  Gregorian calendar, hour 0-23, minute/second 0-59); a successful parse
  yields the timestamp in milliseconds, so a difference of two parses is
  the Go `Milliseconds()` value (Go Time.Sub saturates only beyond spans of
  about 292 years and preserves the sign, so the exact difference stands in
  for it).
-/

set_option linter.dupNamespace false

/-- Msg from src/plugin/type.go: a log message with timestamp, level and text. -/
structure Msg where
  Timestamp : String
  Level : String
  Text : String
deriving DecidableEq

/-- Arg from src/plugin/type.go: an argument passed to a keyword. -/
structure Arg where
  Value : String
deriving DecidableEq

/-- Status from src/plugin/type.go: execution status of a test, keyword or suite. -/
structure Status where
  Status : String
  Critical : String
  StartTime : String
  EndTime : String
  Messages : List Msg
deriving DecidableEq

/-- Keyword from src/plugin/type.go (the Go field `Type` is rendered `KwType`,
`Type` being reserved in Lean). -/
inductive Keyword where
  | mk (Name KwType Library : String) (Arguments : List Arg) (Doc : String)
       (Status : Status) (Messages : List Msg) (Keywords : List Keyword)

/-- Test from src/plugin/type.go. -/
structure Test where
  ID : String
  Name : String
  Keywords : List Keyword
  Status : Status

/-- Suite from src/plugin/type.go: a suite holds tests, keywords and sub-suites. -/
inductive Suite where
  | mk (ID Name Source Doc : String) (Tests : List Test) (Keywords : List Keyword)
       (Status : Status) (Suites : List Suite)

/-- Error from src/plugin/type.go. -/
structure Error where
  Message : String
deriving DecidableEq

/-- RobotOutput from src/plugin/type.go: the parsed output.xml root. -/
structure RobotOutput where
  Suite : Suite
  Errors : List Error

/-- Status projection of a Keyword. -/
def Keyword.Status : Keyword → Status
  | .mk _ _ _ _ _ st _ _ => st

/-- Keywords projection of a Keyword (its nested keywords). -/
def Keyword.Keywords : Keyword → List Keyword
  | .mk _ _ _ _ _ _ _ kws => kws

/-- Name projection of a Suite. -/
def Suite.Name : Suite → String
  | .mk _ n _ _ _ _ _ _ => n

/-- Tests projection of a Suite. -/
def Suite.Tests : Suite → List Test
  | .mk _ _ _ _ ts _ _ _ => ts

/-- Status projection of a Suite. -/
def Suite.Status : Suite → Status
  | .mk _ _ _ _ _ _ st _ => st

/-- Suites projection of a Suite (its direct sub-suites). -/
def Suite.Suites : Suite → List Suite
  | .mk _ _ _ _ _ _ _ ss => ss

/-- FailedTestDetails from src/plugin/type.go: information about one failed test. -/
structure FailedTestDetails where
  Name : String
  Suite : String
  Status : String
  ErrorMessage : String
deriving DecidableEq

/-- StatsResult from src/plugin/type.go: the computed statistics accumulator. -/
@[ext] structure StatsResult where
  TotalSuites : Int
  TotalTests : Int
  PassedTests : Int
  FailedTests : Int
  SkippedTests : Int
  TotalKeywords : Int
  PassedKeywords : Int
  FailedKeywords : Int
  SkippedKeywords : Int
  TotalCritical : Int
  CriticalPassed : Int
  CriticalFailed : Int
  FailureRate : Rat
  SkippedRate : Rat
  ExecutionTime : Rat
  FailedTestsDetails : List FailedTestDetails
deriving DecidableEq

/-- Zero value of StatsResult, the Go `StatsResult{}`. -/
def StatsResult.zero : StatsResult :=
  ⟨0, 0, 0, 0, 0, 0, 0, 0, 0, 0, 0, 0, 0, 0, 0, []⟩

/-- Gregorian leap-year test, as used by Go's time package. -/
def isLeapYear (y : Int) : Bool :=
  (y % 4 == 0 && y % 100 != 0) || y % 400 == 0

/-- Number of days of a month in the proleptic Gregorian calendar. -/
def daysInMonth (y m : Int) : Int :=
  if m = 2 then (if isLeapYear y then 29 else 28)
  else if m = 4 ∨ m = 6 ∨ m = 9 ∨ m = 11 then 30
  else 31

/-- Days since 1970-01-01 of a Gregorian civil date (Hinnant's algorithm,
the arithmetic Go's time package realises). -/
def daysFromCivil (y m d : Int) : Int :=
  let yy := if m ≤ 2 then y - 1 else y
  let era := Int.fdiv yy 400
  let yoe := yy - era * 400
  let mp := (m + 9) % 12
  let doy := Int.fdiv (153 * mp + 2) 5 + d - 1
  let doe := yoe * 365 + Int.fdiv yoe 4 - Int.fdiv yoe 100 + doy
  era * 146097 + doe - 719468

/-- Numeric value of a decimal digit character. -/
def digitToInt (c : Char) : Int :=
  (c.toNat : Int) - 48

/-- Go time's getnum: read a one- or two-digit number from the front of the
input; with fixed set, exactly two digits are required. -/
def getnum (fixed : Bool) : List Char → Option (Int × List Char)
  | c1 :: c2 :: rest =>
      if c1.isDigit then
        if c2.isDigit then some (10 * digitToInt c1 + digitToInt c2, rest)
        else if fixed then none
        else some (digitToInt c1, c2 :: rest)
      else none
  | [c1] =>
      if c1.isDigit then
        if fixed then none else some (digitToInt c1, [])
      else none
  | [] => none

/-- parseRobotTime from src/plugin/type.go (lines 257-261): Go
`time.Parse("20060102 15:04:05.000", timestamp)`, modelled item by item as Go
consumes the layout: a four-digit year, fixed two-digit month and day, a
literal space, a one- or two-digit hour (Go's hour item parses non-fixed),
fixed two-digit minute and second after literal colons, and a
fractional-second separator — '.' or ',', both accepted by Go — followed by
exactly three digits, with nothing after them; every component is
range-checked as Go does (month 1-12, day within the proleptic Gregorian
month, hour at most 23, minute and second at most 59). A successful parse is
returned as the timestamp in milliseconds, so a difference of two parses is
the Go `Milliseconds()` value. -/
def parseRobotTime (timestamp : String) : Option Int :=
  match timestamp.data with
  | y1 :: y2 :: y3 :: y4 :: rest0 =>
    if (y1.isDigit && y2.isDigit && y3.isDigit && y4.isDigit) = true then
      let year := 1000 * digitToInt y1 + 100 * digitToInt y2 + 10 * digitToInt y3 + digitToInt y4
      match getnum true rest0 with
      | some (month, rest1) =>
        match getnum true rest1 with
        | some (day, rest2) =>
          match rest2 with
          | ' ' :: rest3 =>
            match getnum false rest3 with
            | some (hour, rest4) =>
              match rest4 with
              | ':' :: rest5 =>
                match getnum true rest5 with
                | some (minute, rest6) =>
                  match rest6 with
                  | ':' :: rest7 =>
                    match getnum true rest7 with
                    | some (second, rest8) =>
                      match rest8 with
                      | [sep, f1, f2, f3] =>
                        if (sep = '.' ∨ sep = ',')
                            ∧ (f1.isDigit && f2.isDigit && f3.isDigit) = true
                            ∧ 1 ≤ month ∧ month ≤ 12
                            ∧ 1 ≤ day ∧ day ≤ daysInMonth year month
                            ∧ hour ≤ 23 ∧ minute ≤ 59 ∧ second ≤ 59 then
                          some ((((daysFromCivil year month day * 24 + hour) * 60 + minute) * 60
                                + second) * 1000
                              + (100 * digitToInt f1 + 10 * digitToInt f2 + digitToInt f3))
                        else none
                      | _ => none
                    | none => none
                  | _ => none
                | none => none
              | _ => none
            | none => none
          | _ => none
        | none => none
      | none => none
    else none
  | _ => none

/-- Execution-time contribution of one Status: the millisecond difference of
its parsed end and start timestamps, or 0 if either fails to parse. The
difference is exact where Go Time.Sub saturates at spans of about 292
years; the saturated value has the same sign as the exact one. -/
def timeContrib (st : Status) : Rat :=
  match parseRobotTime st.StartTime, parseRobotTime st.EndTime with
  | some startTime, some endTime => ((endTime - startTime : Int) : Rat)
  | _, _ => 0

/-- Timestamp step shared by processSuite (type.go lines 138-145) and
processTest (lines 178-186): parse both ends and add the millisecond
difference to ExecutionTime; on any parse failure leave the stats unchanged. -/
def addExecutionTime (st : Status) (stats : StatsResult) : StatsResult :=
  match parseRobotTime st.StartTime, parseRobotTime st.EndTime with
  | some startTime, some endTime =>
      { stats with ExecutionTime := stats.ExecutionTime + ((endTime - startTime : Int) : Rat) }
  | _, _ => stats

/-- Counting step of processKeyword (type.go lines 237-249): bump
TotalKeywords and the outcome bucket of the keyword's status. -/
def kwStep (kstatus : Status) (stats : StatsResult) : StatsResult :=
  let s1 := { stats with TotalKeywords := stats.TotalKeywords + 1 }
  if kstatus.Status = "PASS" then { s1 with PassedKeywords := s1.PassedKeywords + 1 }
  else if kstatus.Status = "FAIL" then { s1 with FailedKeywords := s1.FailedKeywords + 1 }
  else if kstatus.Status = "SKIP" then { s1 with SkippedKeywords := s1.SkippedKeywords + 1 }
  else s1

mutual
/-- processKeyword from src/plugin/type.go (lines 236-255): count the keyword,
bucket its outcome, then recurse into its nested keywords. -/
def processKeyword : Keyword → StatsResult → StatsResult
  | Keyword.mk _ _ _ _ _ st _ kws, stats => processKeywordList kws (kwStep st stats)
/-- The `for _, subKw := range kw.Keywords` loop of processKeyword. -/
def processKeywordList : List Keyword → StatsResult → StatsResult
  | [], stats => stats
  | kw :: rest, stats => processKeywordList rest (processKeyword kw stats)
end

/-- The last ERROR-level message extraction of processTest (type.go lines
196-201): fold over the test's status messages keeping the text of the last
one whose level equals "ERROR", starting from the empty string. -/
def lastErrorMsg (msgs : List Msg) : String :=
  msgs.foldl (fun acc m => if m.Level = "ERROR" then m.Text else acc) ""

/-- FailedTestDetails entry appended by processTest for a FAIL test
(type.go lines 216-221). -/
def failDetail (test : Test) (suiteName : String) : FailedTestDetails :=
  ⟨test.Name, suiteName, "FAIL", lastErrorMsg test.Status.Messages⟩

/-- Counting part of processTest (type.go lines 173-227): total, execution
time, critical tracking and the pass/fail/skip switch. -/
def testStep (test : Test) (suiteName : String) (stats : StatsResult) (countSkipped : Bool) : StatsResult :=
  let s1 := { stats with TotalTests := stats.TotalTests + 1 }
  let s2 := addExecutionTime test.Status s1
  let s3 := if test.Status.Critical = "yes" then { s2 with TotalCritical := s2.TotalCritical + 1 } else s2
  if test.Status.Status = "PASS" then
    let p := { s3 with PassedTests := s3.PassedTests + 1 }
    if test.Status.Critical = "yes" then { p with CriticalPassed := p.CriticalPassed + 1 } else p
  else if test.Status.Status = "FAIL" then
    let f1 := { s3 with FailedTests := s3.FailedTests + 1 }
    let f2 := if test.Status.Critical = "yes" then { f1 with CriticalFailed := f1.CriticalFailed + 1 } else f1
    { f2 with FailedTestsDetails := f2.FailedTestsDetails ++ [failDetail test suiteName] }
  else if test.Status.Status = "SKIP" then
    if countSkipped = true then { s3 with SkippedTests := s3.SkippedTests + 1 } else s3
  else s3

/-- processTest from src/plugin/type.go (lines 173-233): the counting part
followed by the `for _, kw := range test.Keywords` loop. -/
def processTest (test : Test) (suiteName : String) (stats : StatsResult) (countSkipped : Bool) : StatsResult :=
  processKeywordList test.Keywords (testStep test suiteName stats countSkipped)

/-- The `for _, test := range suite.Tests` loop of processSuite (type.go
lines 149-159): a test is skipped entirely when onlyCritical is set and its
critical flag is not "yes". -/
def processTests : List Test → String → StatsResult → Bool → Bool → StatsResult
  | [], _, stats, _, _ => stats
  | t :: rest, suiteName, stats, oc, cs =>
      processTests rest suiteName
        (if oc = true ∧ t.Status.Critical ≠ "yes" then stats else processTest t suiteName stats cs)
        oc cs

/-- TotalSuites step of processSuite (type.go lines 131-135): count the suite
only if it has direct tests or direct sub-suites. -/
def suiteCountStep (tests : List Test) (suites : List Suite) (stats : StatsResult) : StatsResult :=
  if 0 < tests.length ∨ 0 < suites.length then
    { stats with TotalSuites := stats.TotalSuites + 1 }
  else stats

mutual
/-- processSuite from src/plugin/type.go (lines 128-170): count the suite,
add its execution time, process its direct tests, then recurse into its
direct sub-suites. -/
def processSuite : Suite → StatsResult → Bool → Bool → StatsResult
  | Suite.mk _ n _ _ ts _ st ss, stats, oc, cs =>
      processSuiteList ss (processTests ts n (addExecutionTime st (suiteCountStep ts ss stats)) oc cs) oc cs
/-- The `for _, subSuite := range suite.Suites` loop of processSuite. -/
def processSuiteList : List Suite → StatsResult → Bool → Bool → StatsResult
  | [], stats, _, _ => stats
  | s :: rest, stats, oc, cs => processSuiteList rest (processSuite s stats oc cs) oc cs
end

/-- computeStats from src/plugin/type.go (lines 105-125): walk the tree from
the zero StatsResult, then derive the failure and skipped rates, guarding the
division by a zero TotalTests. -/
def computeStats (robotOutput : RobotOutput) (onlyCritical countSkipped : Bool) : StatsResult :=
  let stats := processSuite robotOutput.Suite StatsResult.zero onlyCritical countSkipped
  if 0 < stats.TotalTests then
    { stats with
      FailureRate := ((stats.FailedTests : Rat) / (stats.TotalTests : Rat)) * 100,
      SkippedRate := ((stats.SkippedTests : Rat) / (stats.TotalTests : Rat)) * 100 }
  else
    { stats with FailureRate := 0, SkippedRate := 0 }

/-- aggregateStats from src/unnamed/part_000 (lines 163-194): field-wise
addition of every counter and of ExecutionTime, concatenation of
FailedTestsDetails, then recomputation of both rates from the merged totals. -/
def aggregateStats (stats fileStats : StatsResult) : StatsResult :=
  let s : StatsResult :=
    { TotalSuites := stats.TotalSuites + fileStats.TotalSuites
      TotalTests := stats.TotalTests + fileStats.TotalTests
      PassedTests := stats.PassedTests + fileStats.PassedTests
      FailedTests := stats.FailedTests + fileStats.FailedTests
      SkippedTests := stats.SkippedTests + fileStats.SkippedTests
      TotalKeywords := stats.TotalKeywords + fileStats.TotalKeywords
      PassedKeywords := stats.PassedKeywords + fileStats.PassedKeywords
      FailedKeywords := stats.FailedKeywords + fileStats.FailedKeywords
      SkippedKeywords := stats.SkippedKeywords + fileStats.SkippedKeywords
      TotalCritical := stats.TotalCritical + fileStats.TotalCritical
      CriticalPassed := stats.CriticalPassed + fileStats.CriticalPassed
      CriticalFailed := stats.CriticalFailed + fileStats.CriticalFailed
      FailureRate := stats.FailureRate
      SkippedRate := stats.SkippedRate
      ExecutionTime := stats.ExecutionTime + fileStats.ExecutionTime
      FailedTestsDetails := stats.FailedTestsDetails ++ fileStats.FailedTestsDetails }
  if 0 < s.TotalTests then
    { s with
      FailureRate := ((s.FailedTests : Rat) / (s.TotalTests : Rat)) * 100,
      SkippedRate := ((s.SkippedTests : Rat) / (s.TotalTests : Rat)) * 100 }
  else
    { s with FailureRate := 0, SkippedRate := 0 }

/-- The merge loop of Exec (src/unnamed/part_000 lines 53-71): fold the
per-file StatsResults into a global StatsResult that starts from the zero
value. -/
def mergeAll (results : List StatsResult) : StatsResult :=
  results.foldl aggregateStats StatsResult.zero

/-- Args from src/unnamed/part_000 (lines 17-25). -/
structure Args where
  ReportDirectory : String
  ReportFileNamePattern : String
  PassThreshold : Int
  UnstableThreshold : Int
  CountSkippedTests : Bool
  OnlyCritical : Bool
  Level : String
deriving DecidableEq

/-- validateThresholds from src/unnamed/part_000 (lines 152-160). The first
component is the returned error (Go `error`, `none` for nil); the second
records whether the unstable warning was logged. -/
def validateThresholds (stats : StatsResult) (args : Args) : Option String × Bool :=
  if args.PassThreshold < stats.FailedTests then
    (some ("failed tests count (" ++ toString stats.FailedTests
        ++ ") exceeds the pass threshold (" ++ toString args.PassThreshold ++ ")"), false)
  else if args.UnstableThreshold < stats.FailedTests then
    (none, true)
  else
    (none, false)

/-- ValidateInputs from src/unnamed/part_000 (lines 28-39). Go passes Args by
value: the defaulting of ReportFileNamePattern mutates only the callee's
local copy, modelled by the shadowing let; the caller observes only the
returned error. -/
def ValidateInputs (args : Args) : Option String :=
  if args.ReportDirectory = "" then some "output path is required"
  else
    let args := if args.ReportFileNamePattern = ""
      then { args with ReportFileNamePattern := "*.xml" } else args
    if args.PassThreshold < 0 ∨ args.UnstableThreshold < 0 then
      some "threshold values must be non-negative"
    else none

/-- The file-name pattern Exec hands to locateFiles (src/unnamed/part_000
line 43): Exec reads it straight from its own (caller-supplied, by-value)
Args. -/
def execReportPattern (args : Args) : String :=
  args.ReportFileNamePattern

/-- The tuple of all StatsResult fields that keyword processing never
touches. -/
def nonKw (s : StatsResult) :=
  (s.TotalSuites, s.TotalTests, s.PassedTests, s.FailedTests, s.SkippedTests,
   s.TotalCritical, s.CriticalPassed, s.CriticalFailed,
   s.FailureRate, s.SkippedRate, s.ExecutionTime, s.FailedTestsDetails)

mutual
/-- Node-wise condition on a tree: okS holds for every suite status and okT
for every test, recursively. -/
def suiteAll (okS : Status → Bool) (okT : Test → Bool) : Suite → Bool
  | Suite.mk _ _ _ _ ts _ st ss => okS st && ts.all okT && suiteAllList okS okT ss
/-- suiteAll over a list of suites. -/
def suiteAllList (okS : Status → Bool) (okT : Test → Bool) : List Suite → Bool
  | [] => true
  | s :: rest => suiteAll okS okT s && suiteAllList okS okT rest
end

mutual
/-- Number of suite nodes (the root included) having at least one direct
test or at least one direct sub-suite. -/
def countSuites : Suite → Int
  | Suite.mk _ _ _ _ ts _ _ ss =>
      (if 0 < ts.length ∨ 0 < ss.length then 1 else 0) + countSuitesList ss
/-- countSuites summed over a list of suites. -/
def countSuitesList : List Suite → Int
  | [] => 0
  | s :: rest => countSuites s + countSuitesList rest
end

/-- Condition that a status whose two timestamps both parse has its start
not after its end. -/
def statusTimeOk (st : Status) : Bool :=
  match parseRobotTime st.StartTime, parseRobotTime st.EndTime with
  | some startTime, some endTime => decide (startTime ≤ endTime)
  | _, _ => true

/-- Consistency of the derived rates with the counters they are computed
from: each rate is the guarded quotient times 100. -/
def rateConsistent (s : StatsResult) : Prop :=
  s.FailureRate
    = (if 0 < s.TotalTests then (s.FailedTests : Rat) / (s.TotalTests : Rat) * 100 else 0) ∧
  s.SkippedRate
    = (if 0 < s.TotalTests then (s.SkippedTests : Rat) / (s.TotalTests : Rat) * 100 else 0)

/-- The equivalence the spec demands of merge results: identical counters,
rates and execution time, and the same failure details as a multiset. -/
def statsEquiv (a b : StatsResult) : Prop :=
  a.TotalSuites = b.TotalSuites ∧ a.TotalTests = b.TotalTests ∧
  a.PassedTests = b.PassedTests ∧ a.FailedTests = b.FailedTests ∧
  a.SkippedTests = b.SkippedTests ∧ a.TotalKeywords = b.TotalKeywords ∧
  a.PassedKeywords = b.PassedKeywords ∧ a.FailedKeywords = b.FailedKeywords ∧
  a.SkippedKeywords = b.SkippedKeywords ∧ a.TotalCritical = b.TotalCritical ∧
  a.CriticalPassed = b.CriticalPassed ∧ a.CriticalFailed = b.CriticalFailed ∧
  a.FailureRate = b.FailureRate ∧ a.SkippedRate = b.SkippedRate ∧
  a.ExecutionTime = b.ExecutionTime ∧
  a.FailedTestsDetails.Perm b.FailedTestsDetails

/-- Sanity bounds of the outcome counters: failed and skipped counts are
non-negative and bounded by the total. -/
def goodCounters (s : StatsResult) : Prop :=
  0 ≤ s.FailedTests ∧ s.FailedTests ≤ s.TotalTests ∧
  0 ≤ s.SkippedTests ∧ s.SkippedTests ≤ s.TotalTests

/-- The last ERROR-level message of a message list, by direct recursion:
the last ERROR in `m :: ms` is the last ERROR of `ms` when one exists, and
otherwise `m` itself when its level is ERROR. -/
def lastErrorSpec : List Msg → Option String
  | [] => none
  | m :: ms =>
    match lastErrorSpec ms with
    | some t => some t
    | none => if m.Level = "ERROR" then some m.Text else none

/-- Outcome of a test is one of the three classified values. -/
def testOutcomeOk (t : Test) : Bool :=
  t.Status.Status == "PASS" || t.Status.Status == "FAIL" || t.Status.Status == "SKIP"

mutual
/-- The tree with every test whose critical flag is not "yes" removed
(suite structure, names and timestamps unchanged). -/
def filterSuite : Suite → Suite
  | Suite.mk i n so dc ts ks st ss =>
      Suite.mk i n so dc (ts.filter (fun t => t.Status.Critical == "yes")) ks st
        (filterSuiteList ss)
/-- filterSuite mapped over a list of suites. -/
def filterSuiteList : List Suite → List Suite
  | [] => []
  | s :: rest => filterSuite s :: filterSuiteList rest
end

/-- Agreement of two stats on every field except TotalSuites. -/
def agreesExceptSuites (a b : StatsResult) : Prop :=
  a.TotalTests = b.TotalTests ∧ a.PassedTests = b.PassedTests ∧
  a.FailedTests = b.FailedTests ∧ a.SkippedTests = b.SkippedTests ∧
  a.TotalKeywords = b.TotalKeywords ∧ a.PassedKeywords = b.PassedKeywords ∧
  a.FailedKeywords = b.FailedKeywords ∧ a.SkippedKeywords = b.SkippedKeywords ∧
  a.TotalCritical = b.TotalCritical ∧ a.CriticalPassed = b.CriticalPassed ∧
  a.CriticalFailed = b.CriticalFailed ∧ a.FailureRate = b.FailureRate ∧
  a.SkippedRate = b.SkippedRate ∧ a.ExecutionTime = b.ExecutionTime ∧
  a.FailedTestsDetails = b.FailedTestsDetails

/-- Status fixture with no outcome, flag, timestamps or messages. -/
def emptyStatus : Status := ⟨"", "", "", "", []⟩

/-- Critical passing test fixture. -/
def passCriticalTest : Test := ⟨"t1", "T1", [], ⟨"PASS", "yes", "", "", []⟩⟩

/-- Critical failing test fixture. -/
def failCriticalTest : Test := ⟨"t2", "T2", [], ⟨"FAIL", "yes", "", "", []⟩⟩

/-- Non-critical failing test fixture. -/
def failNonCriticalTest : Test := ⟨"t3", "T3", [], ⟨"FAIL", "no", "", "", []⟩⟩

/-- The spec's three-test scenario tree: PASS critical, FAIL critical,
FAIL non-critical. -/
def scenarioSuite : Suite :=
  Suite.mk "s1" "Scenario" "" ""
    [passCriticalTest, failCriticalTest, failNonCriticalTest] [] emptyStatus []

/-- RobotOutput around the scenario tree. -/
def scenarioOutput : RobotOutput := ⟨scenarioSuite, []⟩

/-- A test with outcome SKIP. -/
def skipTest : Test := ⟨"t4", "T4", [], ⟨"SKIP", "", "", "", []⟩⟩

/-- A one-test tree whose only test is skipped. -/
def skipOutput : RobotOutput :=
  ⟨Suite.mk "s2" "SkipSuite" "" "" [skipTest] [] emptyStatus [], []⟩

/-- A sample per-file StatsResult. -/
def sampleStatsA : StatsResult :=
  ⟨1, 4, 1, 2, 1, 0, 0, 0, 0, 2, 1, 1, 50, 25, 10960, [⟨"Test2", "S", "FAIL", "boom"⟩]⟩

/-- Another sample per-file StatsResult. -/
def sampleStatsB : StatsResult :=
  ⟨1, 2, 2, 0, 0, 3, 3, 0, 0, 0, 0, 0, 0, 0, 100, []⟩

/-- Merged stats with six failed tests out of ten. -/
def statsSixFailed : StatsResult :=
  { StatsResult.zero with TotalTests := 10, FailedTests := 6 }

/-- Args fixture with pass threshold 5. -/
def argsPass5 : Args := ⟨"./reports", "*.xml", 5, 0, false, false, "info"⟩

/-- Args fixture with pass threshold 10 and unstable threshold 5. -/
def argsPass10U5 : Args := ⟨"./reports", "*.xml", 10, 5, false, false, "info"⟩

/-- Args fixture with an empty report file name pattern. -/
def emptyPatternArgs : Args := ⟨"./reports", "", 0, 0, false, false, "info"⟩

/-- Structural induction principle for Suite: to prove a property of every
suite it suffices to prove it for a suite assuming it for all direct
sub-suites. -/
theorem suite_induction {P : Suite → Prop}
    (h : ∀ s : Suite, (∀ t ∈ s.Suites, P t) → P s) : ∀ s, P s
  | Suite.mk i n so dc ts ks st ss => by
      apply h
      intro t ht
      have h1 : sizeOf t < sizeOf ss :=
        List.sizeOf_lt_of_mem (by simpa [Suite.Suites] using ht)
      have hs : sizeOf t < sizeOf (Suite.mk i n so dc ts ks st ss) := by
        simp only [Suite.mk.sizeOf_spec]
        omega
      exact suite_induction h t
termination_by s => sizeOf s
decreasing_by
  simp_wf
  omega

/-- Structural induction principle for Keyword, analogous to
suite_induction. -/
theorem keyword_induction {P : Keyword → Prop}
    (h : ∀ kw : Keyword, (∀ k ∈ kw.Keywords, P k) → P kw) : ∀ kw, P kw
  | Keyword.mk n ty lib ar dc st ms kws => by
      apply h
      intro k hk
      have h1 : sizeOf k < sizeOf kws :=
        List.sizeOf_lt_of_mem (by simpa [Keyword.Keywords] using hk)
      have hs : sizeOf k < sizeOf (Keyword.mk n ty lib ar dc st ms kws) := by
        simp only [Keyword.mk.sizeOf_spec]
        omega
      exact keyword_induction h k
termination_by kw => sizeOf kw
decreasing_by
  simp_wf
  omega

/-- Predicates preserved by the keyword counting step are preserved along a
list of keywords, given that they are preserved by each member. -/
theorem processKeywordList_pres_aux (Q : StatsResult → Prop) :
    ∀ (l : List Keyword) (st : StatsResult),
      (∀ k ∈ l, ∀ st2, Q st2 → Q (processKeyword k st2)) → Q st →
      Q (processKeywordList l st) := by
  intro l
  induction l with
  | nil => intro st _ hq; simpa [processKeywordList] using hq
  | cons k rest ih =>
      intro st hmem hq
      simp only [processKeywordList]
      exact ih _ (fun k2 hk2 => hmem k2 (List.mem_cons_of_mem _ hk2))
        (hmem k (List.mem_cons_self _ _) st hq)

/-- Predicates preserved by the keyword counting step kwStep are preserved by
processKeyword. -/
theorem processKeyword_pres (Q : StatsResult → Prop)
    (hstep : ∀ sst st, Q st → Q (kwStep sst st)) :
    ∀ kw st, Q st → Q (processKeyword kw st) := by
  intro kw
  induction kw using keyword_induction with
  | _ kw ih =>
    cases kw with
    | mk n ty lib ar dc st ms kws =>
      intro stats hq
      simp only [processKeyword]
      exact processKeywordList_pres_aux Q kws _
        (fun k hk => ih k (by simpa [Keyword.Keywords] using hk))
        (hstep st stats hq)

/-- Predicates preserved by kwStep are preserved by processKeywordList. -/
theorem processKeywordList_pres (Q : StatsResult → Prop)
    (hstep : ∀ sst st, Q st → Q (kwStep sst st)) :
    ∀ l st, Q st → Q (processKeywordList l st) :=
  fun l st hq =>
    processKeywordList_pres_aux Q l st (fun k _ => processKeyword_pres Q hstep k) hq

/-- kwStep only changes the four keyword counters. -/
theorem kwStep_nonKw (sst : Status) (st : StatsResult) :
    nonKw (kwStep sst st) = nonKw st := by
  unfold kwStep nonKw
  split_ifs <;> rfl

/-- processKeywordList only changes the four keyword counters. -/
theorem processKeywordList_nonKw (l : List Keyword) (st : StatsResult) :
    nonKw (processKeywordList l st) = nonKw st :=
  processKeywordList_pres (fun s => nonKw s = nonKw st)
    (fun sst s2 h => (kwStep_nonKw sst s2).trans h) l st rfl

/-- addExecutionTime adds exactly timeContrib to ExecutionTime and changes
nothing else. -/
theorem addExecutionTime_eq (sst : Status) (stats : StatsResult) :
    addExecutionTime sst stats
      = { stats with ExecutionTime := stats.ExecutionTime + timeContrib sst } := by
  unfold addExecutionTime timeContrib
  cases parseRobotTime sst.StartTime <;> cases parseRobotTime sst.EndTime <;> simp

/-- Field-level description of the counting part of processTest: the test is
counted in TotalTests, its time contribution is added, the critical flag and
the outcome drive every remaining field, and the rates are untouched. -/
theorem testStep_spec (t : Test) (n : String) (st : StatsResult) (cs : Bool) :
    (testStep t n st cs).TotalSuites = st.TotalSuites ∧
    (testStep t n st cs).TotalTests = st.TotalTests + 1 ∧
    (testStep t n st cs).ExecutionTime = st.ExecutionTime + timeContrib t.Status ∧
    (testStep t n st cs).TotalCritical
      = st.TotalCritical + (if t.Status.Critical = "yes" then 1 else 0) ∧
    (testStep t n st cs).PassedTests
      = st.PassedTests + (if t.Status.Status = "PASS" then 1 else 0) ∧
    (testStep t n st cs).FailedTests
      = st.FailedTests + (if t.Status.Status = "FAIL" then 1 else 0) ∧
    (testStep t n st cs).SkippedTests
      = st.SkippedTests + (if t.Status.Status = "SKIP" ∧ cs = true then 1 else 0) ∧
    (testStep t n st cs).CriticalPassed
      = st.CriticalPassed
        + (if t.Status.Status = "PASS" ∧ t.Status.Critical = "yes" then 1 else 0) ∧
    (testStep t n st cs).CriticalFailed
      = st.CriticalFailed
        + (if t.Status.Status = "FAIL" ∧ t.Status.Critical = "yes" then 1 else 0) ∧
    (testStep t n st cs).FailedTestsDetails
      = st.FailedTestsDetails
        ++ (if t.Status.Status = "FAIL" then [failDetail t n] else []) ∧
    (testStep t n st cs).FailureRate = st.FailureRate ∧
    (testStep t n st cs).SkippedRate = st.SkippedRate := by
  simp only [testStep, addExecutionTime_eq]
  split_ifs <;> simp_all

/-- Field-level description of processTest: testStep_spec transported through
the keyword loop, which touches none of these fields. -/
theorem processTest_spec (t : Test) (n : String) (st : StatsResult) (cs : Bool) :
    (processTest t n st cs).TotalSuites = st.TotalSuites ∧
    (processTest t n st cs).TotalTests = st.TotalTests + 1 ∧
    (processTest t n st cs).ExecutionTime = st.ExecutionTime + timeContrib t.Status ∧
    (processTest t n st cs).TotalCritical
      = st.TotalCritical + (if t.Status.Critical = "yes" then 1 else 0) ∧
    (processTest t n st cs).PassedTests
      = st.PassedTests + (if t.Status.Status = "PASS" then 1 else 0) ∧
    (processTest t n st cs).FailedTests
      = st.FailedTests + (if t.Status.Status = "FAIL" then 1 else 0) ∧
    (processTest t n st cs).SkippedTests
      = st.SkippedTests + (if t.Status.Status = "SKIP" ∧ cs = true then 1 else 0) ∧
    (processTest t n st cs).CriticalPassed
      = st.CriticalPassed
        + (if t.Status.Status = "PASS" ∧ t.Status.Critical = "yes" then 1 else 0) ∧
    (processTest t n st cs).CriticalFailed
      = st.CriticalFailed
        + (if t.Status.Status = "FAIL" ∧ t.Status.Critical = "yes" then 1 else 0) ∧
    (processTest t n st cs).FailedTestsDetails
      = st.FailedTestsDetails
        ++ (if t.Status.Status = "FAIL" then [failDetail t n] else []) ∧
    (processTest t n st cs).FailureRate = st.FailureRate ∧
    (processTest t n st cs).SkippedRate = st.SkippedRate := by
  have h := processKeywordList_nonKw t.Keywords (testStep t n st cs)
  simp only [nonKw, Prod.mk.injEq] at h
  obtain ⟨e1, e2, e3, e4, e5, e6, e7, e8, e9, e10, e11, e12⟩ := h
  have hs := testStep_spec t n st cs
  obtain ⟨s1, s2, s3, s4, s5, s6, s7, s8, s9, s10, s11, s12⟩ := hs
  unfold processTest
  exact ⟨e1.trans s1, e2.trans s2, e11.trans s3, e6.trans s4, e3.trans s5,
    e4.trans s6, e5.trans s7, e7.trans s8, e8.trans s9, e12.trans s10,
    e9.trans s11, e10.trans s12⟩

/-- A member of a list covered by suiteAllList satisfies suiteAll. -/
theorem suiteAllList_mem {okS : Status → Bool} {okT : Test → Bool} :
    ∀ {ss : List Suite}, suiteAllList okS okT ss = true →
      ∀ {t : Suite}, t ∈ ss → suiteAll okS okT t = true := by
  intro ss
  induction ss with
  | nil => intro _ t ht; cases ht
  | cons hd tl ih =>
      intro hall t ht
      simp only [suiteAllList, Bool.and_eq_true] at hall
      rcases List.mem_cons.mp ht with h | h
      · exact h ▸ hall.1
      · exact ih hall.2 h

/-- The trivial node condition holds of every tree. -/
theorem suiteAll_trivial : ∀ s : Suite, suiteAll (fun _ => true) (fun _ => true) s = true := by
  intro s
  induction s using suite_induction with
  | _ s ih =>
    cases s with
    | mk i nm so dc ts ks stt ss =>
      simp only [suiteAll, Bool.and_eq_true]
      refine ⟨⟨by simp, by simp⟩, ?_⟩
      have ih2 : ∀ t ∈ ss, suiteAll (fun _ => true) (fun _ => true) t = true := by
        intro t ht
        exact ih t (by simpa [Suite.Suites] using ht)
      clear ih
      induction ss with
      | nil => rfl
      | cons hd tl ihl =>
          simp only [suiteAllList, Bool.and_eq_true]
          exact ⟨ih2 hd (List.mem_cons_self _ _),
            ihl (fun t ht => ih2 t (List.mem_cons_of_mem _ ht))⟩

/-- A predicate preserved by processing each member test is preserved by the
test loop of processSuite. -/
theorem processTests_pres_mem (Q : StatsResult → Prop) (n : String) (oc cs : Bool) :
    ∀ (ts : List Test) (st : StatsResult),
      (∀ t ∈ ts, ∀ st2, Q st2 → Q (processTest t n st2 cs)) → Q st →
      Q (processTests ts n st oc cs) := by
  intro ts
  induction ts with
  | nil => intro st _ hq; simpa [processTests] using hq
  | cons t rest ih =>
      intro st hmem hq
      simp only [processTests]
      refine ih _ (fun t2 ht2 => hmem t2 (List.mem_cons_of_mem _ ht2)) ?_
      split_ifs
      · exact hq
      · exact hmem t (List.mem_cons_self _ _) st hq

/-- A predicate preserved by processing each member suite is preserved by
the sub-suite loop of processSuite. -/
theorem processSuiteList_pres_aux (Q : StatsResult → Prop) (oc cs : Bool) :
    ∀ (ss : List Suite) (st : StatsResult),
      (∀ t ∈ ss, ∀ st2, Q st2 → Q (processSuite t st2 oc cs)) → Q st →
      Q (processSuiteList ss st oc cs) := by
  intro ss
  induction ss with
  | nil => intro st _ hq; simpa [processSuiteList] using hq
  | cons hd tl ih =>
      intro st hmem hq
      simp only [processSuiteList]
      exact ih _ (fun t ht => hmem t (List.mem_cons_of_mem _ ht))
        (hmem hd (List.mem_cons_self _ _) st hq)

/-- Master preservation principle for the tree walk: a predicate on the
accumulator that survives the TotalSuites increment, the timestamp step of
every suite whose status satisfies okS, and the processing of every test
satisfying okT, survives processSuite on any tree all of whose nodes satisfy
okS and okT. -/
theorem processSuite_pres (Q : StatsResult → Prop) (oc cs : Bool)
    (okS : Status → Bool) (okT : Test → Bool)
    (hcount : ∀ st : StatsResult, Q st → Q { st with TotalSuites := st.TotalSuites + 1 })
    (htime : ∀ sst : Status, okS sst = true → ∀ st, Q st → Q (addExecutionTime sst st))
    (htest : ∀ t : Test, okT t = true → ∀ (n : String) (st : StatsResult),
      Q st → Q (processTest t n st cs)) :
    ∀ s : Suite, suiteAll okS okT s = true → ∀ st, Q st → Q (processSuite s st oc cs) := by
  intro s
  induction s using suite_induction with
  | _ s ih =>
    cases s with
    | mk i nm so dc ts ks stt ss =>
      intro hall st hq
      simp only [suiteAll, Bool.and_eq_true, List.all_eq_true] at hall
      obtain ⟨⟨hS, hT⟩, hL⟩ := hall
      simp only [processSuite]
      refine processSuiteList_pres_aux Q oc cs ss _
        (fun t ht => ih t (by simpa [Suite.Suites] using ht) (suiteAllList_mem hL ht)) ?_
      refine processTests_pres_mem Q nm oc cs ts _ (fun t ht st2 => htest t (hT t ht) nm st2) ?_
      refine htime stt hS _ ?_
      unfold suiteCountStep
      split_ifs
      · exact hcount st hq
      · exact hq

/-- The final rate computation of computeStats changes no field other than
the two rates. -/
theorem computeStats_spec (ro : RobotOutput) (oc cs : Bool) :
    (computeStats ro oc cs).TotalSuites = (processSuite ro.Suite StatsResult.zero oc cs).TotalSuites ∧
    (computeStats ro oc cs).TotalTests = (processSuite ro.Suite StatsResult.zero oc cs).TotalTests ∧
    (computeStats ro oc cs).PassedTests = (processSuite ro.Suite StatsResult.zero oc cs).PassedTests ∧
    (computeStats ro oc cs).FailedTests = (processSuite ro.Suite StatsResult.zero oc cs).FailedTests ∧
    (computeStats ro oc cs).SkippedTests = (processSuite ro.Suite StatsResult.zero oc cs).SkippedTests ∧
    (computeStats ro oc cs).TotalKeywords = (processSuite ro.Suite StatsResult.zero oc cs).TotalKeywords ∧
    (computeStats ro oc cs).PassedKeywords = (processSuite ro.Suite StatsResult.zero oc cs).PassedKeywords ∧
    (computeStats ro oc cs).FailedKeywords = (processSuite ro.Suite StatsResult.zero oc cs).FailedKeywords ∧
    (computeStats ro oc cs).SkippedKeywords = (processSuite ro.Suite StatsResult.zero oc cs).SkippedKeywords ∧
    (computeStats ro oc cs).TotalCritical = (processSuite ro.Suite StatsResult.zero oc cs).TotalCritical ∧
    (computeStats ro oc cs).CriticalPassed = (processSuite ro.Suite StatsResult.zero oc cs).CriticalPassed ∧
    (computeStats ro oc cs).CriticalFailed = (processSuite ro.Suite StatsResult.zero oc cs).CriticalFailed ∧
    (computeStats ro oc cs).ExecutionTime = (processSuite ro.Suite StatsResult.zero oc cs).ExecutionTime ∧
    (computeStats ro oc cs).FailedTestsDetails = (processSuite ro.Suite StatsResult.zero oc cs).FailedTestsDetails := by
  simp only [computeStats]
  by_cases h : 0 < (processSuite ro.Suite StatsResult.zero oc cs).TotalTests <;> simp [h]

/-- processTests leaves TotalSuites unchanged. -/
theorem processTests_totalSuites (ts : List Test) (n : String) (st : StatsResult) (oc cs : Bool) :
    (processTests ts n st oc cs).TotalSuites = st.TotalSuites :=
  processTests_pres_mem (fun s => s.TotalSuites = st.TotalSuites) n oc cs ts st
    (fun t _ st2 h => ((processTest_spec t n st2 cs).1).trans h) rfl

/-- The sub-suite loop adds countSuitesList to TotalSuites, assuming each
member suite adds its own countSuites. -/
theorem processSuiteList_totalSuites (oc cs : Bool) :
    ∀ (ss : List Suite) (st : StatsResult),
      (∀ t ∈ ss, ∀ st2, (processSuite t st2 oc cs).TotalSuites = st2.TotalSuites + countSuites t) →
      (processSuiteList ss st oc cs).TotalSuites = st.TotalSuites + countSuitesList ss := by
  intro ss
  induction ss with
  | nil => intro st _; simp [processSuiteList, countSuitesList]
  | cons hd tl ih =>
      intro st hmem
      simp only [processSuiteList, countSuitesList]
      rw [ih _ (fun t ht => hmem t (List.mem_cons_of_mem _ ht)),
        hmem hd (List.mem_cons_self _ _) st]
      ring

/-- processSuite adds exactly countSuites to TotalSuites. -/
theorem processSuite_totalSuites (oc cs : Bool) :
    ∀ (s : Suite) (st : StatsResult),
      (processSuite s st oc cs).TotalSuites = st.TotalSuites + countSuites s := by
  intro s
  induction s using suite_induction with
  | _ s ih =>
    cases s with
    | mk i nm so dc ts ks stt ss =>
      intro st
      simp only [processSuite, countSuites]
      rw [processSuiteList_totalSuites oc cs ss _
        (fun t ht => ih t (by simpa [Suite.Suites] using ht)),
        processTests_totalSuites]
      have h1 : (addExecutionTime stt (suiteCountStep ts ss st)).TotalSuites
          = (suiteCountStep ts ss st).TotalSuites := by
        rw [addExecutionTime_eq]
      rw [h1]
      unfold suiteCountStep
      split_ifs <;> ring

/-- Flexibility checks of the timestamp parser, matching Go: a single-digit
hour and a comma fractional-second separator both parse, and a status whose
end precedes its start in the single-digit-hour form is therefore rejected
by statusTimeOk rather than ignored. -/
theorem parseRobotTime_flexible :
    parseRobotTime "20250101 9:00:01.000" = some 1735722001000 ∧
    parseRobotTime "20250101 12:00:01,000" = some 1735732801000 ∧
    parseRobotTime "20250101 12:00:01.000" = some 1735732801000 ∧
    statusTimeOk ⟨"", "", "20250101 9:00:01.000", "20250101 9:00:00.000", []⟩ = false :=
  ⟨by decide, by decide, by decide, by decide⟩

/-- computeStats always produces consistent rates. -/
theorem computeStats_rateConsistent (ro : RobotOutput) (oc cs : Bool) :
    rateConsistent (computeStats ro oc cs) := by
  unfold rateConsistent
  simp only [computeStats]
  by_cases h : 0 < (processSuite ro.Suite StatsResult.zero oc cs).TotalTests <;> simp [h]

/-- The zero StatsResult has consistent rates. -/
theorem zero_rateConsistent : rateConsistent StatsResult.zero := by
  constructor <;> simp [StatsResult.zero]

/-- Counter-level description of aggregateStats: every counter and
ExecutionTime add field-wise and the failure details concatenate. -/
theorem aggregateStats_spec (a b : StatsResult) :
    (aggregateStats a b).TotalSuites = a.TotalSuites + b.TotalSuites ∧
    (aggregateStats a b).TotalTests = a.TotalTests + b.TotalTests ∧
    (aggregateStats a b).PassedTests = a.PassedTests + b.PassedTests ∧
    (aggregateStats a b).FailedTests = a.FailedTests + b.FailedTests ∧
    (aggregateStats a b).SkippedTests = a.SkippedTests + b.SkippedTests ∧
    (aggregateStats a b).TotalKeywords = a.TotalKeywords + b.TotalKeywords ∧
    (aggregateStats a b).PassedKeywords = a.PassedKeywords + b.PassedKeywords ∧
    (aggregateStats a b).FailedKeywords = a.FailedKeywords + b.FailedKeywords ∧
    (aggregateStats a b).SkippedKeywords = a.SkippedKeywords + b.SkippedKeywords ∧
    (aggregateStats a b).TotalCritical = a.TotalCritical + b.TotalCritical ∧
    (aggregateStats a b).CriticalPassed = a.CriticalPassed + b.CriticalPassed ∧
    (aggregateStats a b).CriticalFailed = a.CriticalFailed + b.CriticalFailed ∧
    (aggregateStats a b).ExecutionTime = a.ExecutionTime + b.ExecutionTime ∧
    (aggregateStats a b).FailedTestsDetails = a.FailedTestsDetails ++ b.FailedTestsDetails := by
  simp only [aggregateStats]
  by_cases h : 0 < a.TotalTests + b.TotalTests <;> simp [h]

/-- aggregateStats always recomputes both rates from the merged counters. -/
theorem aggregateStats_rateConsistent (a b : StatsResult) :
    rateConsistent (aggregateStats a b) := by
  unfold rateConsistent
  simp only [aggregateStats]
  by_cases h : 0 < a.TotalTests + b.TotalTests <;> simp [h]

/-- rateConsistent survives folding any list of results with aggregateStats. -/
theorem foldl_agg_rateConsistent :
    ∀ (l : List StatsResult) (acc : StatsResult), rateConsistent acc →
      rateConsistent (l.foldl aggregateStats acc) := by
  intro l
  induction l with
  | nil => intro acc h; simpa using h
  | cons x t ih =>
      intro acc _
      simpa using ih (aggregateStats acc x) (aggregateStats_rateConsistent acc x)

/-- The global merge always has rates recomputed from its own counters. -/
theorem mergeAll_rateConsistent (l : List StatsResult) : rateConsistent (mergeAll l) :=
  foldl_agg_rateConsistent l StatsResult.zero zero_rateConsistent

/-- Folding with aggregateStats sums every counter and ExecutionTime
field-wise over the list and concatenates the failure details in order. -/
theorem foldl_agg_fields :
    ∀ (l : List StatsResult) (acc : StatsResult),
      (l.foldl aggregateStats acc).TotalSuites
        = acc.TotalSuites + (l.map (fun s => s.TotalSuites)).sum ∧
      (l.foldl aggregateStats acc).TotalTests
        = acc.TotalTests + (l.map (fun s => s.TotalTests)).sum ∧
      (l.foldl aggregateStats acc).PassedTests
        = acc.PassedTests + (l.map (fun s => s.PassedTests)).sum ∧
      (l.foldl aggregateStats acc).FailedTests
        = acc.FailedTests + (l.map (fun s => s.FailedTests)).sum ∧
      (l.foldl aggregateStats acc).SkippedTests
        = acc.SkippedTests + (l.map (fun s => s.SkippedTests)).sum ∧
      (l.foldl aggregateStats acc).TotalKeywords
        = acc.TotalKeywords + (l.map (fun s => s.TotalKeywords)).sum ∧
      (l.foldl aggregateStats acc).PassedKeywords
        = acc.PassedKeywords + (l.map (fun s => s.PassedKeywords)).sum ∧
      (l.foldl aggregateStats acc).FailedKeywords
        = acc.FailedKeywords + (l.map (fun s => s.FailedKeywords)).sum ∧
      (l.foldl aggregateStats acc).SkippedKeywords
        = acc.SkippedKeywords + (l.map (fun s => s.SkippedKeywords)).sum ∧
      (l.foldl aggregateStats acc).TotalCritical
        = acc.TotalCritical + (l.map (fun s => s.TotalCritical)).sum ∧
      (l.foldl aggregateStats acc).CriticalPassed
        = acc.CriticalPassed + (l.map (fun s => s.CriticalPassed)).sum ∧
      (l.foldl aggregateStats acc).CriticalFailed
        = acc.CriticalFailed + (l.map (fun s => s.CriticalFailed)).sum ∧
      (l.foldl aggregateStats acc).ExecutionTime
        = acc.ExecutionTime + (l.map (fun s => s.ExecutionTime)).sum ∧
      (l.foldl aggregateStats acc).FailedTestsDetails
        = acc.FailedTestsDetails ++ l.flatMap (fun s => s.FailedTestsDetails) := by
  intro l
  induction l with
  | nil => intro acc; simp
  | cons x t ih =>
      intro acc
      obtain ⟨i1, i2, i3, i4, i5, i6, i7, i8, i9, i10, i11, i12, i13, i14⟩ :=
        ih (aggregateStats acc x)
      obtain ⟨a1, a2, a3, a4, a5, a6, a7, a8, a9, a10, a11, a12, a13, a14⟩ :=
        aggregateStats_spec acc x
      simp only [List.foldl_cons, List.map_cons, List.sum_cons, List.flatMap_cons]
      refine ⟨?_, ?_, ?_, ?_, ?_, ?_, ?_, ?_, ?_, ?_, ?_, ?_, ?_, ?_⟩
      · rw [i1, a1]; ring
      · rw [i2, a2]; ring
      · rw [i3, a3]; ring
      · rw [i4, a4]; ring
      · rw [i5, a5]; ring
      · rw [i6, a6]; ring
      · rw [i7, a7]; ring
      · rw [i8, a8]; ring
      · rw [i9, a9]; ring
      · rw [i10, a10]; ring
      · rw [i11, a11]; ring
      · rw [i12, a12]; ring
      · rw [i13, a13]; ring
      · rw [i14, a14]; simp

/-- Two results with consistent rates and identical totals, failed and
skipped counts have identical rates. -/
theorem rate_eq_of_counters {s1 s2 : StatsResult}
    (h1 : rateConsistent s1) (h2 : rateConsistent s2)
    (hT : s1.TotalTests = s2.TotalTests) (hF : s1.FailedTests = s2.FailedTests)
    (hS : s1.SkippedTests = s2.SkippedTests) :
    s1.FailureRate = s2.FailureRate ∧ s1.SkippedRate = s2.SkippedRate := by
  rw [h1.1, h1.2, h2.1, h2.2, hT, hF, hS]
  exact ⟨rfl, rfl⟩

/-- aggregateStats is associative on the nose: every counter addition is
associative, the details concatenate associatively, and the rates are
recomputed from the same merged totals on both sides. -/
theorem aggregateStats_assoc (a b c : StatsResult) :
    aggregateStats (aggregateStats a b) c = aggregateStats a (aggregateStats b c) := by
  obtain ⟨l1, l2, l3, l4, l5, l6, l7, l8, l9, l10, l11, l12, l13, l14⟩ :=
    aggregateStats_spec (aggregateStats a b) c
  obtain ⟨m1, m2, m3, m4, m5, m6, m7, m8, m9, m10, m11, m12, m13, m14⟩ :=
    aggregateStats_spec a b
  obtain ⟨r1, r2, r3, r4, r5, r6, r7, r8, r9, r10, r11, r12, r13, r14⟩ :=
    aggregateStats_spec a (aggregateStats b c)
  obtain ⟨n1, n2, n3, n4, n5, n6, n7, n8, n9, n10, n11, n12, n13, n14⟩ :=
    aggregateStats_spec b c
  have hT : (aggregateStats (aggregateStats a b) c).TotalTests
      = (aggregateStats a (aggregateStats b c)).TotalTests := by
    rw [l2, m2, r2, n2]; ring
  have hF : (aggregateStats (aggregateStats a b) c).FailedTests
      = (aggregateStats a (aggregateStats b c)).FailedTests := by
    rw [l4, m4, r4, n4]; ring
  have hS : (aggregateStats (aggregateStats a b) c).SkippedTests
      = (aggregateStats a (aggregateStats b c)).SkippedTests := by
    rw [l5, m5, r5, n5]; ring
  have hrate := rate_eq_of_counters (aggregateStats_rateConsistent _ _)
    (aggregateStats_rateConsistent _ _) hT hF hS
  ext
  · rw [l1, m1, r1, n1]; ring
  · exact hT
  · rw [l3, m3, r3, n3]; ring
  · exact hF
  · exact hS
  · rw [l6, m6, r6, n6]; ring
  · rw [l7, m7, r7, n7]; ring
  · rw [l8, m8, r8, n8]; ring
  · rw [l9, m9, r9, n9]; ring
  · rw [l10, m10, r10, n10]; ring
  · rw [l11, m11, r11, n11]; ring
  · rw [l12, m12, r12, n12]; ring
  · exact hrate.1
  · exact hrate.2
  · rw [l13, m13, r13, n13]; ring
  · rw [l14, m14, r14, n14]; simp [List.append_assoc]

/-- aggregateStats is commutative up to statsEquiv: all numeric fields are
equal and the details lists are permutations of one another. -/
theorem aggregateStats_comm (a b : StatsResult) :
    statsEquiv (aggregateStats a b) (aggregateStats b a) := by
  obtain ⟨x1, x2, x3, x4, x5, x6, x7, x8, x9, x10, x11, x12, x13, x14⟩ :=
    aggregateStats_spec a b
  obtain ⟨y1, y2, y3, y4, y5, y6, y7, y8, y9, y10, y11, y12, y13, y14⟩ :=
    aggregateStats_spec b a
  have hT : (aggregateStats a b).TotalTests = (aggregateStats b a).TotalTests := by
    rw [x2, y2]; ring
  have hF : (aggregateStats a b).FailedTests = (aggregateStats b a).FailedTests := by
    rw [x4, y4]; ring
  have hS : (aggregateStats a b).SkippedTests = (aggregateStats b a).SkippedTests := by
    rw [x5, y5]; ring
  have hrate := rate_eq_of_counters (aggregateStats_rateConsistent _ _)
    (aggregateStats_rateConsistent _ _) hT hF hS
  exact ⟨by rw [x1, y1]; ring, hT, by rw [x3, y3]; ring, hF, hS,
    by rw [x6, y6]; ring, by rw [x7, y7]; ring, by rw [x8, y8]; ring,
    by rw [x9, y9]; ring, by rw [x10, y10]; ring, by rw [x11, y11]; ring,
    by rw [x12, y12]; ring, hrate.1, hrate.2, by rw [x13, y13]; ring,
    by rw [x14, y14]; exact List.perm_append_comm⟩

/-- Fields of the global merge: every counter is the sum over the input
list and the details are the concatenation of the inputs' details. -/
theorem mergeAll_fields (l : List StatsResult) :
    (mergeAll l).TotalSuites = (l.map (fun s => s.TotalSuites)).sum ∧
    (mergeAll l).TotalTests = (l.map (fun s => s.TotalTests)).sum ∧
    (mergeAll l).PassedTests = (l.map (fun s => s.PassedTests)).sum ∧
    (mergeAll l).FailedTests = (l.map (fun s => s.FailedTests)).sum ∧
    (mergeAll l).SkippedTests = (l.map (fun s => s.SkippedTests)).sum ∧
    (mergeAll l).TotalKeywords = (l.map (fun s => s.TotalKeywords)).sum ∧
    (mergeAll l).PassedKeywords = (l.map (fun s => s.PassedKeywords)).sum ∧
    (mergeAll l).FailedKeywords = (l.map (fun s => s.FailedKeywords)).sum ∧
    (mergeAll l).SkippedKeywords = (l.map (fun s => s.SkippedKeywords)).sum ∧
    (mergeAll l).TotalCritical = (l.map (fun s => s.TotalCritical)).sum ∧
    (mergeAll l).CriticalPassed = (l.map (fun s => s.CriticalPassed)).sum ∧
    (mergeAll l).CriticalFailed = (l.map (fun s => s.CriticalFailed)).sum ∧
    (mergeAll l).ExecutionTime = (l.map (fun s => s.ExecutionTime)).sum ∧
    (mergeAll l).FailedTestsDetails = l.flatMap (fun s => s.FailedTestsDetails) := by
  have h := foldl_agg_fields l StatsResult.zero
  simpa [mergeAll, StatsResult.zero] using h

/-- Merging any permutation of the same per-file results yields equivalent
global results. -/
theorem mergeAll_perm {l1 l2 : List StatsResult} (hp : l1.Perm l2) :
    statsEquiv (mergeAll l1) (mergeAll l2) := by
  obtain ⟨p1, p2, p3, p4, p5, p6, p7, p8, p9, p10, p11, p12, p13, p14⟩ := mergeAll_fields l1
  obtain ⟨q1, q2, q3, q4, q5, q6, q7, q8, q9, q10, q11, q12, q13, q14⟩ := mergeAll_fields l2
  have hsum : ∀ f : StatsResult → Int, (l1.map f).sum = (l2.map f).sum :=
    fun f => (hp.map f).sum_eq
  have hsumQ : ∀ f : StatsResult → Rat, (l1.map f).sum = (l2.map f).sum :=
    fun f => (hp.map f).sum_eq
  have hT : (mergeAll l1).TotalTests = (mergeAll l2).TotalTests := by
    rw [p2, q2]; exact hsum _
  have hF : (mergeAll l1).FailedTests = (mergeAll l2).FailedTests := by
    rw [p4, q4]; exact hsum _
  have hS : (mergeAll l1).SkippedTests = (mergeAll l2).SkippedTests := by
    rw [p5, q5]; exact hsum _
  have hrate := rate_eq_of_counters (mergeAll_rateConsistent l1)
    (mergeAll_rateConsistent l2) hT hF hS
  refine ⟨by rw [p1, q1]; exact hsum _, hT, by rw [p3, q3]; exact hsum _, hF, hS,
    by rw [p6, q6]; exact hsum _, by rw [p7, q7]; exact hsum _,
    by rw [p8, q8]; exact hsum _, by rw [p9, q9]; exact hsum _,
    by rw [p10, q10]; exact hsum _, by rw [p11, q11]; exact hsum _,
    by rw [p12, q12]; exact hsum _, hrate.1, hrate.2,
    by rw [p13, q13]; exact hsumQ _, ?_⟩
  rw [p14, q14]
  exact hp.flatMap_right _

/-- Grouping is irrelevant: merging the concatenation of two batches equals
aggregating the two batches' merges. -/
theorem mergeAll_append (l1 l2 : List StatsResult) :
    mergeAll (l1 ++ l2) = aggregateStats (mergeAll l1) (mergeAll l2) := by
  obtain ⟨p1, p2, p3, p4, p5, p6, p7, p8, p9, p10, p11, p12, p13, p14⟩ :=
    mergeAll_fields (l1 ++ l2)
  obtain ⟨u1, u2, u3, u4, u5, u6, u7, u8, u9, u10, u11, u12, u13, u14⟩ := mergeAll_fields l1
  obtain ⟨v1, v2, v3, v4, v5, v6, v7, v8, v9, v10, v11, v12, v13, v14⟩ := mergeAll_fields l2
  obtain ⟨a1, a2, a3, a4, a5, a6, a7, a8, a9, a10, a11, a12, a13, a14⟩ :=
    aggregateStats_spec (mergeAll l1) (mergeAll l2)
  have hT : (mergeAll (l1 ++ l2)).TotalTests
      = (aggregateStats (mergeAll l1) (mergeAll l2)).TotalTests := by
    rw [p2, a2, u2, v2]; simp
  have hF : (mergeAll (l1 ++ l2)).FailedTests
      = (aggregateStats (mergeAll l1) (mergeAll l2)).FailedTests := by
    rw [p4, a4, u4, v4]; simp
  have hS : (mergeAll (l1 ++ l2)).SkippedTests
      = (aggregateStats (mergeAll l1) (mergeAll l2)).SkippedTests := by
    rw [p5, a5, u5, v5]; simp
  have hrate := rate_eq_of_counters (mergeAll_rateConsistent (l1 ++ l2))
    (aggregateStats_rateConsistent _ _) hT hF hS
  ext
  · rw [p1, a1, u1, v1]; simp
  · exact hT
  · rw [p3, a3, u3, v3]; simp
  · exact hF
  · exact hS
  · rw [p6, a6, u6, v6]; simp
  · rw [p7, a7, u7, v7]; simp
  · rw [p8, a8, u8, v8]; simp
  · rw [p9, a9, u9, v9]; simp
  · rw [p10, a10, u10, v10]; simp
  · rw [p11, a11, u11, v11]; simp
  · rw [p12, a12, u12, v12]; simp
  · exact hrate.1
  · exact hrate.2
  · rw [p13, a13, u13, v13]; simp
  · rw [p14, a14, u14, v14]; simp

/-- The tree walk preserves the counter bounds. -/
theorem processSuite_goodCounters (oc cs : Bool) (s : Suite) (st : StatsResult)
    (h : goodCounters st) : goodCounters (processSuite s st oc cs) := by
  refine processSuite_pres goodCounters oc cs (fun _ => true) (fun _ => true)
    ?_ ?_ ?_ s (suiteAll_trivial s) st h
  · intro st2 hq
    exact hq
  · intro sst _ st2 hq
    rw [addExecutionTime_eq]
    exact hq
  · intro t _ n st2 hq
    obtain ⟨_, h2, _, _, _, h6, h7, _⟩ := processTest_spec t n st2 cs
    unfold goodCounters at *
    rw [h2, h6, h7]
    split_ifs <;> omega

/-- Bounded counters and consistent rates force both rates into [0, 100]. -/
theorem rate_bounds {s : StatsResult} (hrc : rateConsistent s) (hg : goodCounters s) :
    0 ≤ s.FailureRate ∧ s.FailureRate ≤ 100 ∧ 0 ≤ s.SkippedRate ∧ s.SkippedRate ≤ 100 := by
  obtain ⟨h1, h2⟩ := hrc
  obtain ⟨g1, g2, g3, g4⟩ := hg
  rw [h1, h2]
  split_ifs with h
  · have hT : (0 : Rat) < (s.TotalTests : Rat) := by exact_mod_cast h
    have hF0 : (0 : Rat) ≤ (s.FailedTests : Rat) := by exact_mod_cast g1
    have hFT : (s.FailedTests : Rat) ≤ (s.TotalTests : Rat) := by exact_mod_cast g2
    have hS0 : (0 : Rat) ≤ (s.SkippedTests : Rat) := by exact_mod_cast g3
    have hST : (s.SkippedTests : Rat) ≤ (s.TotalTests : Rat) := by exact_mod_cast g4
    refine ⟨mul_nonneg (div_nonneg hF0 (le_of_lt hT)) (by norm_num), ?_,
      mul_nonneg (div_nonneg hS0 (le_of_lt hT)) (by norm_num), ?_⟩
    · calc (s.FailedTests : Rat) / (s.TotalTests : Rat) * 100
          ≤ 1 * 100 := mul_le_mul_of_nonneg_right ((div_le_one hT).mpr hFT) (by norm_num)
        _ = 100 := by norm_num
    · calc (s.SkippedTests : Rat) / (s.TotalTests : Rat) * 100
          ≤ 1 * 100 := mul_le_mul_of_nonneg_right ((div_le_one hT).mpr hST) (by norm_num)
        _ = 100 := by norm_num
  · exact ⟨le_refl 0, by norm_num, le_refl 0, by norm_num⟩

/-- Merging a batch of results with bounded counters yields bounded
counters. -/
theorem mergeAll_goodCounters {l : List StatsResult} (h : ∀ x ∈ l, goodCounters x) :
    goodCounters (mergeAll l) := by
  obtain ⟨_, p2, _, p4, p5, _⟩ := mergeAll_fields l
  unfold goodCounters
  rw [p2, p4, p5]
  refine ⟨?_, ?_, ?_, ?_⟩
  · refine List.sum_nonneg ?_
    intro x hx
    obtain ⟨y, hy, rfl⟩ := List.mem_map.mp hx
    exact (h y hy).1
  · refine List.sum_le_sum ?_
    intro y hy
    exact (h y hy).2.1
  · refine List.sum_nonneg ?_
    intro x hx
    obtain ⟨y, hy, rfl⟩ := List.mem_map.mp hx
    exact (h y hy).2.2.1
  · refine List.sum_le_sum ?_
    intro y hy
    exact (h y hy).2.2.2

/-- The fold of processTest computes exactly the last ERROR message,
whatever the accumulator it starts from. -/
theorem lastErrorMsg_aux :
    ∀ (msgs : List Msg) (acc : String),
      msgs.foldl (fun acc m => if m.Level = "ERROR" then m.Text else acc) acc
        = (lastErrorSpec msgs).getD acc := by
  intro msgs
  induction msgs with
  | nil => intro acc; simp [lastErrorSpec]
  | cons m ms ih =>
      intro acc
      simp only [List.foldl_cons, lastErrorSpec]
      rw [ih]
      cases h : lastErrorSpec ms <;> split_ifs <;> simp [h]

/-- lastErrorMsg is the last ERROR message, or the empty string if none. -/
theorem lastErrorMsg_eq (msgs : List Msg) :
    lastErrorMsg msgs = (lastErrorSpec msgs).getD "" :=
  lastErrorMsg_aux msgs ""

/-- lastErrorSpec picks exactly the last element of the ERROR-filtered
message list. -/
theorem lastErrorSpec_eq_filter (msgs : List Msg) :
    lastErrorSpec msgs
      = ((msgs.filter (fun m => m.Level == "ERROR")).getLast?).map Msg.Text := by
  induction msgs with
  | nil => simp [lastErrorSpec]
  | cons m ms ih =>
      simp only [lastErrorSpec, List.filter_cons]
      by_cases hc : m.Level = "ERROR"
      · have hc2 : (m.Level == "ERROR") = true := by simpa using hc
        rw [ih, hc2]
        simp only [if_true]
        cases hf : ms.filter (fun m => m.Level == "ERROR") with
        | nil => simp [hf, hc]
        | cons b bs =>
            cases hg : (b :: bs).getLast? with
            | none => simp [List.getLast?_eq_none_iff] at hg
            | some x => simp [List.getLast?_cons_cons, hg]
      · have hc2 : (m.Level == "ERROR") = false := by simpa using hc
        rw [ih, hc2]
        simp only [Bool.false_eq_true, if_false, if_neg hc]
        cases hg : (ms.filter (fun m => m.Level == "ERROR")).getLast? <;> simp [hg]

/-- With countSkipped false, the tree walk never touches SkippedTests. -/
theorem processSuite_skipped_const (oc : Bool) (s : Suite) (st : StatsResult) :
    (processSuite s st oc false).SkippedTests = st.SkippedTests :=
  processSuite_pres (fun x => x.SkippedTests = st.SkippedTests) oc false
    (fun _ => true) (fun _ => true)
    (fun _ hq => hq)
    (fun _ _ _ hq => by rwa [addExecutionTime_eq])
    (fun t _ n st2 hq => by
      obtain ⟨_, _, _, _, _, _, h7, _⟩ := processTest_spec t n st2 false
      rw [h7]
      simpa using hq)
    s (suiteAll_trivial s) st rfl

/-- The tree walk keeps the number of failure detail entries in lockstep
with FailedTests. -/
theorem processSuite_details_len (oc cs : Bool) (s : Suite) (st : StatsResult) :
    ((processSuite s st oc cs).FailedTestsDetails.length : Int)
        - (processSuite s st oc cs).FailedTests
      = (st.FailedTestsDetails.length : Int) - st.FailedTests :=
  processSuite_pres
    (fun x => (x.FailedTestsDetails.length : Int) - x.FailedTests
      = (st.FailedTestsDetails.length : Int) - st.FailedTests) oc cs
    (fun _ => true) (fun _ => true)
    (fun _ hq => hq)
    (fun _ _ _ hq => by rwa [addExecutionTime_eq])
    (fun t _ n st2 hq => by
      replace hq : (st2.FailedTestsDetails.length : Int) - st2.FailedTests
          = (st.FailedTestsDetails.length : Int) - st.FailedTests := hq
      obtain ⟨_, _, _, _, _, h6, _, _, _, h10, _⟩ := processTest_spec t n st2 cs
      show ((processTest t n st2 cs).FailedTestsDetails.length : Int)
          - (processTest t n st2 cs).FailedTests
        = (st.FailedTestsDetails.length : Int) - st.FailedTests
      rw [h10, h6]
      by_cases hF : t.Status.Status = "FAIL"
      · simp only [hF, if_true, List.length_append, List.length_cons, List.length_nil]
        push_cast
        omega
      · simp only [hF, if_false, List.append_nil, Bool.false_eq_true]
        simpa using hq)
    s (suiteAll_trivial s) st rfl

/-- With countSkipped true, every counted test of classified outcome adds one
to exactly one outcome bucket, so the partition equation is preserved. -/
theorem processSuite_partition (oc : Bool) (s : Suite)
    (hall : suiteAll (fun _ => true) testOutcomeOk s = true) (st : StatsResult)
    (hq : st.PassedTests + st.FailedTests + st.SkippedTests = st.TotalTests) :
    (processSuite s st oc true).PassedTests + (processSuite s st oc true).FailedTests
        + (processSuite s st oc true).SkippedTests
      = (processSuite s st oc true).TotalTests :=
  processSuite_pres
    (fun x => x.PassedTests + x.FailedTests + x.SkippedTests = x.TotalTests) oc true
    (fun _ => true) testOutcomeOk
    (fun _ hq2 => hq2)
    (fun _ _ _ hq2 => by rw [addExecutionTime_eq]; simpa using hq2)
    (fun t hok n st2 hq2 => by
      replace hq2 : st2.PassedTests + st2.FailedTests + st2.SkippedTests = st2.TotalTests := hq2
      obtain ⟨_, h2, _, _, h5, h6, h7, _⟩ := processTest_spec t n st2 true
      show (processTest t n st2 true).PassedTests + (processTest t n st2 true).FailedTests
          + (processTest t n st2 true).SkippedTests = (processTest t n st2 true).TotalTests
      rw [h2, h5, h6, h7]
      simp only [testOutcomeOk, Bool.or_eq_true, beq_iff_eq] at hok
      rcases hok with (h | h) | h <;> rw [h] <;> simp <;> omega)
    s hall st hq

/-- agreesExceptSuites is reflexive. -/
theorem agreesExceptSuites_refl (a : StatsResult) : agreesExceptSuites a a := by
  unfold agreesExceptSuites
  exact ⟨rfl, rfl, rfl, rfl, rfl, rfl, rfl, rfl, rfl, rfl, rfl, rfl, rfl, rfl, rfl⟩

/-- The keyword counting step acts identically on agreeing states. -/
theorem kwStep_congr (sst : Status) {a b : StatsResult} (h : agreesExceptSuites a b) :
    agreesExceptSuites (kwStep sst a) (kwStep sst b) := by
  unfold agreesExceptSuites at *
  unfold kwStep
  split_ifs <;> simp_all

/-- processKeywordList acts identically on agreeing states, given that each
member keyword does. -/
theorem processKeywordList_congr_aux :
    ∀ (l : List Keyword) (a b : StatsResult),
      (∀ k ∈ l, ∀ a2 b2, agreesExceptSuites a2 b2 →
        agreesExceptSuites (processKeyword k a2) (processKeyword k b2)) →
      agreesExceptSuites a b →
      agreesExceptSuites (processKeywordList l a) (processKeywordList l b) := by
  intro l
  induction l with
  | nil => intro a b _ hab; simpa [processKeywordList] using hab
  | cons k rest ih =>
      intro a b hmem hab
      simp only [processKeywordList]
      exact ih _ _ (fun k2 hk2 => hmem k2 (List.mem_cons_of_mem _ hk2))
        (hmem k (List.mem_cons_self _ _) a b hab)

/-- processKeyword acts identically on agreeing states. -/
theorem processKeyword_congr :
    ∀ (kw : Keyword) {a b : StatsResult}, agreesExceptSuites a b →
      agreesExceptSuites (processKeyword kw a) (processKeyword kw b) := by
  intro kw
  induction kw using keyword_induction with
  | _ kw ih =>
    cases kw with
    | mk n ty lib ar dc st ms kws =>
      intro a b hab
      simp only [processKeyword]
      exact processKeywordList_congr_aux kws _ _
        (fun k hk a2 b2 h2 => ih k (by simpa [Keyword.Keywords] using hk) h2)
        (kwStep_congr st hab)

/-- The timestamp step acts identically on agreeing states. -/
theorem addExecutionTime_congr (sst : Status) {a b : StatsResult}
    (h : agreesExceptSuites a b) :
    agreesExceptSuites (addExecutionTime sst a) (addExecutionTime sst b) := by
  unfold agreesExceptSuites at *
  rw [addExecutionTime_eq, addExecutionTime_eq]
  simp_all

/-- The test counting step acts identically on agreeing states. -/
theorem testStep_congr (t : Test) (n : String) (cs : Bool) {a b : StatsResult}
    (h : agreesExceptSuites a b) :
    agreesExceptSuites (testStep t n a cs) (testStep t n b cs) := by
  unfold agreesExceptSuites at *
  simp only [testStep, addExecutionTime_eq]
  split_ifs <;> simp_all

/-- processTest acts identically on agreeing states. -/
theorem processTest_congr (t : Test) (n : String) (cs : Bool) {a b : StatsResult}
    (h : agreesExceptSuites a b) :
    agreesExceptSuites (processTest t n a cs) (processTest t n b cs) := by
  unfold processTest
  exact processKeywordList_congr_aux _ _ _ (fun k _ a2 b2 h2 => processKeyword_congr k h2)
    (testStep_congr t n cs h)

/-- The test loop acts identically on agreeing states. -/
theorem processTests_congr (n : String) (oc cs : Bool) :
    ∀ (ts : List Test) {a b : StatsResult}, agreesExceptSuites a b →
      agreesExceptSuites (processTests ts n a oc cs) (processTests ts n b oc cs) := by
  intro ts
  induction ts with
  | nil => intro a b hab; simpa [processTests] using hab
  | cons t rest ih =>
      intro a b hab
      simp only [processTests]
      split_ifs
      · exact ih hab
      · exact ih (processTest_congr t n cs hab)

/-- With onlyCritical set, the test loop is invariant under first dropping
the non-critical tests from the list: the loop's own guard already skips
exactly those tests. -/
theorem processTests_filter (n : String) (cs : Bool) :
    ∀ (ts : List Test) (st : StatsResult),
      processTests ts n st true cs
        = processTests (ts.filter (fun t => t.Status.Critical == "yes")) n st true cs := by
  intro ts
  induction ts with
  | nil => intro st; rfl
  | cons t rest ih =>
      intro st
      simp only [processTests, List.filter_cons]
      by_cases hc : t.Status.Critical = "yes"
      · have hc2 : (t.Status.Critical == "yes") = true := by simpa using hc
        rw [hc2]
        simp only [if_true]
        rw [if_neg (by simp [hc])]
        simp only [processTests]
        rw [if_neg (by simp [hc])]
        exact ih _
      · have hc2 : (t.Status.Critical == "yes") = false := by simpa using hc
        rw [hc2]
        simp only [Bool.false_eq_true, if_false]
        rw [if_pos ⟨by trivial, hc⟩]
        exact ih st

/-- The TotalSuites step keeps agreeing states agreeing: it only ever
touches TotalSuites, which agreement ignores. -/
theorem suiteCountStep_agrees {a b : StatsResult} (h : agreesExceptSuites a b)
    (ts : List Test) (ss : List Suite) (ts2 : List Test) (ss2 : List Suite) :
    agreesExceptSuites (suiteCountStep ts ss a) (suiteCountStep ts2 ss2 b) := by
  unfold agreesExceptSuites at *
  unfold suiteCountStep
  split_ifs <;> simp_all

/-- The sub-suite loop relates a tree and its filtered version on agreeing
states, given that each member suite does. -/
theorem processSuiteList_congr_aux (oc cs : Bool) :
    ∀ (ss : List Suite) (a b : StatsResult),
      (∀ t ∈ ss, ∀ a2 b2, agreesExceptSuites a2 b2 →
        agreesExceptSuites (processSuite t a2 oc cs) (processSuite (filterSuite t) b2 oc cs)) →
      agreesExceptSuites a b →
      agreesExceptSuites (processSuiteList ss a oc cs)
        (processSuiteList (filterSuiteList ss) b oc cs) := by
  intro ss
  induction ss with
  | nil => intro a b _ hab; simpa [processSuiteList, filterSuiteList] using hab
  | cons hd tl ih =>
      intro a b hmem hab
      simp only [processSuiteList, filterSuiteList]
      exact ih _ _ (fun t ht => hmem t (List.mem_cons_of_mem _ ht))
        (hmem hd (List.mem_cons_self _ _) a b hab)

/-- With onlyCritical set, walking a tree and walking its critical-only
filtered version agree on every field except TotalSuites. -/
theorem processSuite_filter (cs : Bool) :
    ∀ (s : Suite) {a b : StatsResult}, agreesExceptSuites a b →
      agreesExceptSuites (processSuite s a true cs)
        (processSuite (filterSuite s) b true cs) := by
  intro s
  induction s using suite_induction with
  | _ s ih =>
    cases s with
    | mk i nm so dc ts ks stt ss =>
      intro a b hab
      simp only [processSuite, filterSuite]
      refine processSuiteList_congr_aux true cs ss _ _
        (fun t ht a2 b2 h2 => ih t (by simpa [Suite.Suites] using ht) h2) ?_
      rw [← processTests_filter]
      exact processTests_congr nm true cs ts
        (addExecutionTime_congr stt (suiteCountStep_agrees hab ts ss _ _))

/-- Running computeStats with onlyCritical on a tree and on its
critical-only filtered version agrees on every field except TotalSuites. -/
theorem computeStats_filter (ro : RobotOutput) (cs : Bool) :
    agreesExceptSuites (computeStats ro true cs)
      (computeStats ⟨filterSuite ro.Suite, ro.Errors⟩ true cs) := by
  obtain ⟨e1, e2, e3, e4, e5, e6, e7, e8, e9, e10, e11, e12, e13, e14, e15⟩ :=
    processSuite_filter cs ro.Suite (agreesExceptSuites_refl StatsResult.zero)
  obtain ⟨c1, c2, c3, c4, c5, c6, c7, c8, c9, c10, c11, c12, c13, c14⟩ :=
    computeStats_spec ro true cs
  obtain ⟨d1, d2, d3, d4, d5, d6, d7, d8, d9, d10, d11, d12, d13, d14⟩ :=
    computeStats_spec ⟨filterSuite ro.Suite, ro.Errors⟩ true cs
  have d2c : (computeStats ⟨filterSuite ro.Suite, ro.Errors⟩ true cs).TotalTests
      = (processSuite (filterSuite ro.Suite) StatsResult.zero true cs).TotalTests := d2
  have d3c : (computeStats ⟨filterSuite ro.Suite, ro.Errors⟩ true cs).PassedTests
      = (processSuite (filterSuite ro.Suite) StatsResult.zero true cs).PassedTests := d3
  have d4c : (computeStats ⟨filterSuite ro.Suite, ro.Errors⟩ true cs).FailedTests
      = (processSuite (filterSuite ro.Suite) StatsResult.zero true cs).FailedTests := d4
  have d5c : (computeStats ⟨filterSuite ro.Suite, ro.Errors⟩ true cs).SkippedTests
      = (processSuite (filterSuite ro.Suite) StatsResult.zero true cs).SkippedTests := d5
  have d6c : (computeStats ⟨filterSuite ro.Suite, ro.Errors⟩ true cs).TotalKeywords
      = (processSuite (filterSuite ro.Suite) StatsResult.zero true cs).TotalKeywords := d6
  have d7c : (computeStats ⟨filterSuite ro.Suite, ro.Errors⟩ true cs).PassedKeywords
      = (processSuite (filterSuite ro.Suite) StatsResult.zero true cs).PassedKeywords := d7
  have d8c : (computeStats ⟨filterSuite ro.Suite, ro.Errors⟩ true cs).FailedKeywords
      = (processSuite (filterSuite ro.Suite) StatsResult.zero true cs).FailedKeywords := d8
  have d9c : (computeStats ⟨filterSuite ro.Suite, ro.Errors⟩ true cs).SkippedKeywords
      = (processSuite (filterSuite ro.Suite) StatsResult.zero true cs).SkippedKeywords := d9
  have d10c : (computeStats ⟨filterSuite ro.Suite, ro.Errors⟩ true cs).TotalCritical
      = (processSuite (filterSuite ro.Suite) StatsResult.zero true cs).TotalCritical := d10
  have d11c : (computeStats ⟨filterSuite ro.Suite, ro.Errors⟩ true cs).CriticalPassed
      = (processSuite (filterSuite ro.Suite) StatsResult.zero true cs).CriticalPassed := d11
  have d12c : (computeStats ⟨filterSuite ro.Suite, ro.Errors⟩ true cs).CriticalFailed
      = (processSuite (filterSuite ro.Suite) StatsResult.zero true cs).CriticalFailed := d12
  have d13c : (computeStats ⟨filterSuite ro.Suite, ro.Errors⟩ true cs).ExecutionTime
      = (processSuite (filterSuite ro.Suite) StatsResult.zero true cs).ExecutionTime := d13
  have d14c : (computeStats ⟨filterSuite ro.Suite, ro.Errors⟩ true cs).FailedTestsDetails
      = (processSuite (filterSuite ro.Suite) StatsResult.zero true cs).FailedTestsDetails := d14
  have hT := c2.trans (e1.trans d2c.symm)
  have hF := c4.trans (e3.trans d4c.symm)
  have hS := c5.trans (e4.trans d5c.symm)
  have hrate := rate_eq_of_counters (computeStats_rateConsistent ro true cs)
    (computeStats_rateConsistent ⟨filterSuite ro.Suite, ro.Errors⟩ true cs) hT hF hS
  exact ⟨hT, c3.trans (e2.trans d3c.symm), hF, hS,
    c6.trans (e5.trans d6c.symm), c7.trans (e6.trans d7c.symm),
    c8.trans (e7.trans d8c.symm), c9.trans (e8.trans d9c.symm),
    c10.trans (e9.trans d10c.symm), c11.trans (e10.trans d11c.symm),
    c12.trans (e11.trans d12c.symm), hrate.1, hrate.2,
    c13.trans (e14.trans d13c.symm), c14.trans (e15.trans d14c.symm)⟩

/-- computeStats produces bounded outcome counters. -/
theorem computeStats_goodCounters (ro : RobotOutput) (oc cs : Bool) :
    goodCounters (computeStats ro oc cs) := by
  obtain ⟨_, h2, _, h4, h5, _⟩ := computeStats_spec ro oc cs
  have hg := processSuite_goodCounters oc cs ro.Suite StatsResult.zero
    (by unfold goodCounters StatsResult.zero; norm_num)
  unfold goodCounters at *
  rw [h2, h4, h5]
  exact hg

/-- Consistent rates over bounded counters satisfy the spec's rate clause:
zero on an empty total, the exact quotient formula otherwise, and always
within [0, 100]. -/
theorem rateSpec_of_consistent {s : StatsResult}
    (hrc : rateConsistent s) (hg : goodCounters s) :
    (s.TotalTests = 0 → s.FailureRate = 0 ∧ s.SkippedRate = 0) ∧
    (0 < s.TotalTests →
      s.FailureRate = 100 * (s.FailedTests : Rat) / (s.TotalTests : Rat) ∧
      s.SkippedRate = 100 * (s.SkippedTests : Rat) / (s.TotalTests : Rat)) ∧
    (0 ≤ s.FailureRate ∧ s.FailureRate ≤ 100 ∧
     0 ≤ s.SkippedRate ∧ s.SkippedRate ≤ 100) := by
  refine ⟨?_, ?_, rate_bounds hrc hg⟩
  · intro h0
    rw [hrc.1, hrc.2, h0]
    norm_num
  · intro hpos
    rw [hrc.1, hrc.2, if_pos hpos, if_pos hpos]
    constructor <;> ring

/-- C1: the merge of per-file StatsResults (aggregateStats) is associative
and commutative: grouping is irrelevant on the nose (associativity and the
batch-split law hold as equalities, rates being recomputed from the merged
totals each time), and swapping or permuting the inputs of the zero-based
fold preserves every counter field, ExecutionTime and both rates, with
FailedTestsDetails preserved as an unordered multiset. -/
theorem C1_aggregate_assoc_comm :
    (∀ a b c : StatsResult,
      aggregateStats (aggregateStats a b) c = aggregateStats a (aggregateStats b c)) ∧
    (∀ a b : StatsResult, statsEquiv (aggregateStats a b) (aggregateStats b a)) ∧
    (∀ l1 l2 : List StatsResult, l1.Perm l2 → statsEquiv (mergeAll l1) (mergeAll l2)) ∧
    (∀ l1 l2 : List StatsResult,
      mergeAll (l1 ++ l2) = aggregateStats (mergeAll l1) (mergeAll l2)) :=
  ⟨aggregateStats_assoc, aggregateStats_comm, fun _ _ hp => mergeAll_perm hp, mergeAll_append⟩

/-- Witness for C1 at two concrete per-file results. -/
theorem C1_aggregate_assoc_comm_witness :
    statsEquiv (mergeAll [sampleStatsA, sampleStatsB]) (mergeAll [sampleStatsB, sampleStatsA]) :=
  C1_aggregate_assoc_comm.2.2.1 [sampleStatsA, sampleStatsB] [sampleStatsB, sampleStatsA]
    (by decide)

/-- C2: a SKIP test processed with countSkipped false increments TotalTests
but leaves SkippedTests, PassedTests and FailedTests unchanged; its
SkippedTests bucket is incremented only when countSkipped is true; and with
countSkipped false and onlyCritical false the whole computation leaves
SkippedTests at 0 on every tree. -/
theorem C2_skip_counting :
    (∀ (t : Test) (n : String) (st : StatsResult), t.Status.Status = "SKIP" →
      ((processTest t n st false).TotalTests = st.TotalTests + 1 ∧
       (processTest t n st false).SkippedTests = st.SkippedTests ∧
       (processTest t n st false).PassedTests = st.PassedTests ∧
       (processTest t n st false).FailedTests = st.FailedTests) ∧
      (processTest t n st true).SkippedTests = st.SkippedTests + 1) ∧
    (∀ ro : RobotOutput, (computeStats ro false false).SkippedTests = 0) := by
  constructor
  · intro t n st hS
    obtain ⟨_, h2, _, _, h5, h6, h7, _⟩ := processTest_spec t n st false
    obtain ⟨_, _, _, _, _, _, g7, _⟩ := processTest_spec t n st true
    refine ⟨⟨h2, ?_, ?_, ?_⟩, ?_⟩
    · rw [h7]; simp [hS]
    · rw [h5]; simp [hS]
    · rw [h6]; simp [hS]
    · rw [g7]; simp [hS]
  · intro ro
    obtain ⟨_, _, _, _, h5, _⟩ := computeStats_spec ro false false
    rw [h5, processSuite_skipped_const]
    rfl

/-- Witness for C2 at a concrete SKIP test and one-test tree. -/
theorem C2_skip_counting_witness :
    (processTest skipTest "S" StatsResult.zero false).TotalTests = 1 ∧
    (processTest skipTest "S" StatsResult.zero false).SkippedTests = 0 ∧
    (processTest skipTest "S" StatsResult.zero true).SkippedTests = 1 ∧
    (computeStats skipOutput false false).SkippedTests = 0 := by
  have h := C2_skip_counting
  have h1 := h.1 skipTest "S" StatsResult.zero rfl
  exact ⟨by rw [h1.1.1]; decide, by rw [h1.1.2.1]; decide, by rw [h1.2]; decide,
    h.2 skipOutput⟩

/-- C3: with onlyCritical true, every test whose critical flag is not "yes"
contributes to no counter: the computation agrees, on every field except
TotalSuites, with the computation on the tree from which those tests were
removed; on the three-test scenario tree the result is TotalTests 2,
PassedTests 1, FailedTests 1 and FailureRate 50. -/
theorem C3_only_critical_excluded :
    (∀ (ro : RobotOutput) (cs : Bool),
      agreesExceptSuites (computeStats ro true cs)
        (computeStats ⟨filterSuite ro.Suite, ro.Errors⟩ true cs)) ∧
    ((computeStats scenarioOutput true false).TotalTests = 2 ∧
     (computeStats scenarioOutput true false).PassedTests = 1 ∧
     (computeStats scenarioOutput true false).FailedTests = 1 ∧
     (computeStats scenarioOutput true false).FailureRate = 50) := by
  refine ⟨computeStats_filter, by decide, by decide, by decide, ?_⟩
  simp [computeStats, processSuite, processSuiteList, processTests, processTest, testStep,
    processKeywordList, suiteCountStep, addExecutionTime, parseRobotTime, StatsResult.zero,
    scenarioOutput, scenarioSuite, emptyStatus, passCriticalTest, failCriticalTest,
    failNonCriticalTest]
  norm_num

/-- C5: the threshold validator errors exactly when FailedTests exceeds the
pass threshold, the error message carrying both numbers; when FailedTests
is within the pass threshold but exceeds the unstable threshold it only
surfaces a warning and returns success; within both thresholds it returns
success with no warning. -/
theorem C5_thresholds (stats : StatsResult) (args : Args) :
    ((validateThresholds stats args).1.isSome ↔ args.PassThreshold < stats.FailedTests) ∧
    (args.PassThreshold < stats.FailedTests →
      (validateThresholds stats args).1
        = some ("failed tests count (" ++ toString stats.FailedTests
            ++ ") exceeds the pass threshold (" ++ toString args.PassThreshold ++ ")")) ∧
    (stats.FailedTests ≤ args.PassThreshold → args.UnstableThreshold < stats.FailedTests →
      validateThresholds stats args = (none, true)) ∧
    (stats.FailedTests ≤ args.PassThreshold → stats.FailedTests ≤ args.UnstableThreshold →
      validateThresholds stats args = (none, false)) := by
  unfold validateThresholds
  refine ⟨?_, ?_, ?_, ?_⟩ <;> split_ifs <;> simp_all

/-- Witness for C5: six failures against pass threshold 5 yield the error
with both numbers; six failures against thresholds (10, 5) yield success
with the unstable warning. -/
theorem C5_thresholds_witness :
    (validateThresholds statsSixFailed argsPass5).1
      = some "failed tests count (6) exceeds the pass threshold (5)" ∧
    validateThresholds statsSixFailed argsPass10U5 = (none, true) := by
  have h1 := (C5_thresholds statsSixFailed argsPass5).2.1 (by decide)
  have h2 := (C5_thresholds statsSixFailed argsPass10U5).2.2.1 (by decide) (by decide)
  exact ⟨h1, h2⟩

/-- C6: each counted FAIL test appends exactly one FailedTestDetail holding
the test's name, the owning suite's name, the literal label "FAIL" and the
last ERROR-level message text (the empty string when there is none); hence
the number of detail entries always equals FailedTests. -/
theorem C6_fail_details :
    (∀ (t : Test) (n : String) (st : StatsResult) (cs : Bool),
      t.Status.Status = "FAIL" →
      (processTest t n st cs).FailedTestsDetails
        = st.FailedTestsDetails
          ++ [⟨t.Name, n, "FAIL",
                ((((t.Status.Messages.filter (fun m => m.Level == "ERROR")).getLast?).map
                  Msg.Text).getD "")⟩]) ∧
    (∀ (ro : RobotOutput) (oc cs : Bool),
      ((computeStats ro oc cs).FailedTestsDetails.length : Int)
        = (computeStats ro oc cs).FailedTests) := by
  constructor
  · intro t n st cs hF
    obtain ⟨_, _, _, _, _, _, _, _, _, h10, _⟩ := processTest_spec t n st cs
    rw [h10]
    simp [hF, failDetail, lastErrorMsg_eq, lastErrorSpec_eq_filter]
  · intro ro oc cs
    obtain ⟨_, _, _, h4, _, _, _, _, _, _, _, _, _, h14⟩ := computeStats_spec ro oc cs
    have hinv := processSuite_details_len oc cs ro.Suite StatsResult.zero
    rw [h14, h4]
    have h0 : ((processSuite ro.Suite StatsResult.zero oc cs).FailedTestsDetails.length : Int)
        - (processSuite ro.Suite StatsResult.zero oc cs).FailedTests = 0 :=
      hinv.trans (by decide)
    omega

/-- Witness for C6 at a concrete failing test carrying two messages of
which the later ERROR one must be picked. -/
theorem C6_fail_details_witness :
    (processTest
        ⟨"t9", "T9", [],
          ⟨"FAIL", "no", "", "",
            [⟨"ts1", "ERROR", "first"⟩, ⟨"ts2", "INFO", "mid"⟩, ⟨"ts3", "ERROR", "second"⟩]⟩⟩
        "Owner" StatsResult.zero false).FailedTestsDetails
      = [⟨"T9", "Owner", "FAIL", "second"⟩] := by
  have h := C6_fail_details.1
    ⟨"t9", "T9", [],
      ⟨"FAIL", "no", "", "",
        [⟨"ts1", "ERROR", "first"⟩, ⟨"ts2", "INFO", "mid"⟩, ⟨"ts3", "ERROR", "second"⟩]⟩⟩
    "Owner" StatsResult.zero false rfl
  rw [h]
  decide

/-- C7: after the tree is folded, and likewise after merging any batch of
per-file results with bounded counters, each rate is 0 when TotalTests is 0
and otherwise 100 times the failed (or skipped) count over the total, and
both rates lie within [0, 100]. -/
theorem C7_rates (ro : RobotOutput) (oc cs : Bool) (l : List StatsResult)
    (hl : ∀ x ∈ l, goodCounters x) :
    (((computeStats ro oc cs).TotalTests = 0 →
        (computeStats ro oc cs).FailureRate = 0 ∧ (computeStats ro oc cs).SkippedRate = 0) ∧
     (0 < (computeStats ro oc cs).TotalTests →
        (computeStats ro oc cs).FailureRate
          = 100 * ((computeStats ro oc cs).FailedTests : Rat)
              / ((computeStats ro oc cs).TotalTests : Rat) ∧
        (computeStats ro oc cs).SkippedRate
          = 100 * ((computeStats ro oc cs).SkippedTests : Rat)
              / ((computeStats ro oc cs).TotalTests : Rat)) ∧
     (0 ≤ (computeStats ro oc cs).FailureRate ∧ (computeStats ro oc cs).FailureRate ≤ 100 ∧
      0 ≤ (computeStats ro oc cs).SkippedRate ∧ (computeStats ro oc cs).SkippedRate ≤ 100)) ∧
    (((mergeAll l).TotalTests = 0 →
        (mergeAll l).FailureRate = 0 ∧ (mergeAll l).SkippedRate = 0) ∧
     (0 < (mergeAll l).TotalTests →
        (mergeAll l).FailureRate
          = 100 * ((mergeAll l).FailedTests : Rat) / ((mergeAll l).TotalTests : Rat) ∧
        (mergeAll l).SkippedRate
          = 100 * ((mergeAll l).SkippedTests : Rat) / ((mergeAll l).TotalTests : Rat)) ∧
     (0 ≤ (mergeAll l).FailureRate ∧ (mergeAll l).FailureRate ≤ 100 ∧
      0 ≤ (mergeAll l).SkippedRate ∧ (mergeAll l).SkippedRate ≤ 100)) :=
  ⟨rateSpec_of_consistent (computeStats_rateConsistent ro oc cs)
      (computeStats_goodCounters ro oc cs),
   rateSpec_of_consistent (mergeAll_rateConsistent l) (mergeAll_goodCounters hl)⟩

/-- Witness for C7 on the scenario tree and a singleton batch. -/
theorem C7_rates_witness :
    (0 ≤ (computeStats scenarioOutput false false).FailureRate) ∧
    (mergeAll [StatsResult.zero]).FailureRate = 0 := by
  have h := C7_rates scenarioOutput false false [StatsResult.zero]
    (by
      intro x hx
      simp only [List.mem_singleton] at hx
      subst hx
      exact ⟨by decide, by decide, by decide, by decide⟩)
  exact ⟨h.1.2.2.1, (h.2.1 (by decide)).1⟩

/-- C8: with countSkipped true and onlyCritical false, on every tree whose
test outcomes are all classified (PASS, FAIL or SKIP), the outcome buckets
partition the total: PassedTests + FailedTests + SkippedTests equals
TotalTests. -/
theorem C8_partition (ro : RobotOutput)
    (h : suiteAll (fun _ => true) testOutcomeOk ro.Suite = true) :
    (computeStats ro false true).PassedTests + (computeStats ro false true).FailedTests
        + (computeStats ro false true).SkippedTests
      = (computeStats ro false true).TotalTests := by
  obtain ⟨_, h2, h3, h4, h5, _⟩ := computeStats_spec ro false true
  rw [h2, h3, h4, h5]
  exact processSuite_partition false ro.Suite h StatsResult.zero (by decide)

/-- Witness for C8 on the scenario tree. -/
theorem C8_partition_witness :
    (computeStats scenarioOutput false true).PassedTests
        + (computeStats scenarioOutput false true).FailedTests
        + (computeStats scenarioOutput false true).SkippedTests
      = (computeStats scenarioOutput false true).TotalTests :=
  C8_partition scenarioOutput (by decide)

/-- C9: for every tree and every flag combination, TotalSuites equals the
number of suite nodes (root included) that have at least one direct test
or at least one direct sub-suite, and a suite node with neither direct
tests nor direct sub-suites counts for nothing. -/
theorem C9_total_suites :
    (∀ (ro : RobotOutput) (oc cs : Bool),
      (computeStats ro oc cs).TotalSuites = countSuites ro.Suite) ∧
    (∀ (i n so dc : String) (ks : List Keyword) (stt : Status),
      countSuites (Suite.mk i n so dc [] ks stt []) = 0) := by
  constructor
  · intro ro oc cs
    have h1 := (computeStats_spec ro oc cs).1
    rw [h1, processSuite_totalSuites]
    simp [StatsResult.zero]
  · intro i n so dc ks stt
    simp [countSuites, countSuitesList]

/-- C10: ValidateInputs takes its Args by value, so defaulting the report
pattern is invisible to the caller: any Args with a non-empty directory and
non-negative thresholds validates to nil even with an empty pattern, and
the pattern Exec later hands to locateFiles is still the caller's own. -/
theorem C10_validate_inputs_by_value (args : Args)
    (hdir : args.ReportDirectory ≠ "") (hp : 0 ≤ args.PassThreshold)
    (hu : 0 ≤ args.UnstableThreshold) :
    ValidateInputs args = none ∧ execReportPattern args = args.ReportFileNamePattern := by
  refine ⟨?_, rfl⟩
  unfold ValidateInputs
  rw [if_neg hdir]
  by_cases hpat : args.ReportFileNamePattern = ""
  · have hthr : ¬({ args with ReportFileNamePattern := "*.xml" }.PassThreshold < 0
        ∨ { args with ReportFileNamePattern := "*.xml" }.UnstableThreshold < 0) := by
      simp only []
      omega
    rw [if_pos hpat, if_neg hthr]
  · have hthr : ¬(args.PassThreshold < 0 ∨ args.UnstableThreshold < 0) := by omega
    rw [if_neg hpat, if_neg hthr]

/-- Witness for C10 at an Args with an empty pattern. -/
theorem C10_validate_inputs_by_value_witness :
    ValidateInputs emptyPatternArgs = none ∧ execReportPattern emptyPatternArgs = "" := by
  have h := C10_validate_inputs_by_value emptyPatternArgs (by decide) (by decide) (by decide)
  exact ⟨h.1, h.2⟩
